import Mathlib

/-!
Shallow embedding of `src/scrobbler.py` (a Last.fm scrobbling CLI) and
verification of its specification.

Modelling conventions:
* A Python `dict` with string keys and values is an insertion-ordered
  association list (`Dict`); lookup returns the first binding.
* `hashlib.md5(...).hexdigest()` is abstracted as a parameter
  `md5hex : String → String`; every property proved here holds for the
  real digest function in particular.
* HTTP traffic is abstracted as a function from the posted form data to a
  response (`HttpResponse`), carrying the status code and the result of
  `response.json()` (`none` when the body does not parse).
* Python exceptions become `Except PyErr` values; a bare `except` clause
  becomes a `match` on the `Except`.
-/

namespace Scrobbler

/-- A Python string-keyed, string-valued dict, as an insertion-ordered
association list. A genuine dict has `Nodup` keys. -/
abbrev Dict := List (String × String)

/-- Keys of a dict, in insertion order (`params.keys()`). -/
def keysOf (d : Dict) : List String := d.map Prod.fst

/-- Dict lookup `d[k]`: the first value bound to `k` (defaulting to `""`,
which is never reached when `k` is drawn from `keysOf d`). -/
def dictGet (d : Dict) (k : String) : String :=
  ((d.find? (fun kv => kv.1 = k)).map (fun kv => kv.2)).getD ""

/-- Effect of `d.pop(k, None)` on the mapping: remove the binding of `k`. -/
def dictPop (d : Dict) (k : String) : Dict :=
  d.filter (fun kv => kv.1 ≠ k)

/-- Python's `sorted` on strings: ascending lexicographic (by code point). -/
def pySortStr (l : List String) : List String :=
  l.insertionSort (· ≤ ·)

/-- Python's `list.sort()` on integers: ascending. -/
def pySortInt (l : List Int) : List Int :=
  l.insertionSort (· ≤ ·)

/-- The slicing loop `for i in range(0, len(l), n): l[i:i+n]` of
`batch_scrobble`, as the list of successive chunks of size `n`.
(The source only ever calls it with `n = 50`; the `n = 0` row is the
degenerate case Python's `range` would reject, never reached.) -/
def chunksOf (l : List α) (n : Nat) : List (List α) :=
  match l, n with
  | [], _ => []
  | _, 0 => []
  | x :: xs, m + 1 => (x :: xs).take (m + 1) :: chunksOf ((x :: xs).drop (m + 1)) (m + 1)
termination_by l.length
decreasing_by simp; omega

theorem chunksOf_nil (n : Nat) : chunksOf ([] : List α) n = [] := by
  rw [chunksOf]

theorem chunksOf_zero (l : List α) : chunksOf l 0 = [] := by
  cases l with
  | nil => rw [chunksOf]
  | cons x xs => rw [chunksOf]; simp

theorem chunksOf_cons (x : α) (xs : List α) (m : Nat) :
    chunksOf (x :: xs) (m + 1) =
      (x :: xs).take (m + 1) :: chunksOf ((x :: xs).drop (m + 1)) (m + 1) := by
  rw [chunksOf]

/-- Every chunk has at most `n` elements. -/
theorem length_le_of_mem_chunksOf (l : List α) (n : Nat) :
    ∀ c ∈ chunksOf l n, c.length ≤ n := by
  induction l, n using chunksOf.induct with
  | case1 n => intro c hc; simp [chunksOf_nil] at hc
  | case2 l h => intro c hc; rw [chunksOf_zero] at hc; simp at hc
  | case3 x xs m ih =>
    intro c hc
    rw [chunksOf_cons] at hc
    rcases List.mem_cons.mp hc with h1 | h1
    · subst h1; exact List.length_take_le (m + 1) (x :: xs)
    · exact ih c h1

/-- Chunking partitions the list: concatenating the chunks gives it back. -/
theorem join_chunksOf (l : List α) (n : Nat) (hn : n ≠ 0) :
    (chunksOf l n).flatten = l := by
  induction l, n using chunksOf.induct with
  | case1 n => simp [chunksOf_nil]
  | case2 l h => exact absurd rfl hn
  | case3 x xs m ih =>
    rw [chunksOf_cons]
    simp only [List.flatten_cons, ih (Nat.succ_ne_zero m), List.take_append_drop]

/-- The number of chunks, with the `n = 0` degenerate case folded in. -/
theorem length_chunksOf_aux (l : List α) (n : Nat) :
    (chunksOf l n).length = if n = 0 then 0 else (l.length + n - 1) / n := by
  induction l, n using chunksOf.induct with
  | case1 n =>
    cases n with
    | zero => simp [chunksOf_nil]
    | succ m =>
      have e : ([] : List α).length + (m + 1) - 1 = m := by simp
      rw [chunksOf_nil, if_neg (Nat.succ_ne_zero m), e, Nat.div_eq_of_lt (by omega)]
      rfl
  | case2 l h => simp [chunksOf_zero]
  | case3 x xs m ih =>
    rw [chunksOf_cons, List.length_cons, ih, if_neg (Nat.succ_ne_zero m),
      if_neg (Nat.succ_ne_zero m)]
    have hd : ((x :: xs).drop (m + 1)).length = xs.length - m := by
      rw [List.length_drop]; simp
    rw [hd]
    rcases Nat.le_total m xs.length with hle | hle
    · have e1 : xs.length - m + (m + 1) - 1 = xs.length := by omega
      have e2 : (x :: xs).length + (m + 1) - 1 = xs.length + (m + 1) := by
        rw [List.length_cons]; omega
      rw [e1, e2, Nat.add_div_right _ (Nat.succ_pos m)]
    · have e1 : xs.length - m + (m + 1) - 1 = m := by omega
      have e2 : m / (m + 1) = 0 := Nat.div_eq_of_lt (by omega)
      have e3 : ((x :: xs).length + (m + 1) - 1) / (m + 1) = 1 := by
        rw [List.length_cons]
        apply Nat.div_eq_of_lt_le <;> omega
      rw [e1, e2, e3]

/-- The number of chunks is `⌈l.length / n⌉`, written `(l.length + n - 1) / n`. -/
theorem length_chunksOf (l : List α) (n : Nat) (hn : n ≠ 0) :
    (chunksOf l n).length = (l.length + n - 1) / n := by
  rw [length_chunksOf_aux, if_neg hn]

/-- The chunk sizes sum to the length of the list. -/
theorem sum_length_chunksOf (l : List α) (n : Nat) (hn : n ≠ 0) :
    ((chunksOf l n).map List.length).sum = l.length := by
  calc ((chunksOf l n).map List.length).sum
      = (chunksOf l n).flatten.length := (List.length_flatten _).symm
    _ = l.length := by rw [join_chunksOf l n hn]

/-! ### Timestamp generation (`batch_scrobble`, lines 150–158)

`base_timestamp` is `int(start_date.timestamp())` when a start date is given
and `int(time.time())` otherwise; either way it enters the computation as one
integer, so it is a parameter here. `track_duration = 180`. -/

/-- The raw (pre-sort) timestamp list
`[base_timestamp - (i * track_duration) for i in range(count)]`. -/
def rawTimestamps (count : Nat) (base : Int) : List Int :=
  (List.range count).map (fun (i : Nat) => base - (i : Int) * 180)

/-- `rawTimestamps` followed by `timestamps.sort()`. -/
def genTimestamps (count : Nat) (base : Int) : List Int :=
  pySortInt (rawTimestamps count base)

theorem range_reverse (n : Nat) :
    (List.range n).reverse = (List.range n).map (fun i => n - 1 - i) := by
  apply List.ext_getElem?
  intro i
  rcases Nat.lt_or_ge i n with hi | hi
  · rw [List.getElem?_reverse (by simpa using hi), List.getElem?_map]
    have h1 : n - 1 - i < n := by omega
    rw [List.length_range, List.getElem?_range h1, List.getElem?_range hi]
    simp
  · rw [List.getElem?_eq_none (by simpa using hi), List.getElem?_eq_none (by simpa using hi)]

/-- Closed form of the generated timestamp list: ascending, `180` apart,
ending at the base timestamp. -/
theorem genTimestamps_eq (count : Nat) (base : Int) :
    genTimestamps count base =
      (List.range count).map (fun (i : Nat) => base - ((count - 1 - i : Nat) : Int) * 180) := by
  have hrev : (rawTimestamps count base).reverse =
      (List.range count).map (fun (i : Nat) => base - ((count - 1 - i : Nat) : Int) * 180) := by
    rw [rawTimestamps, ← List.map_reverse, range_reverse, List.map_map]
    rfl
  have hperm : (genTimestamps count base).Perm
      ((List.range count).map (fun (i : Nat) => base - ((count - 1 - i : Nat) : Int) * 180)) := by
    rw [← hrev]
    exact (List.perm_insertionSort _ _).trans (List.reverse_perm _).symm
  have hs1 : List.Sorted (· ≤ ·) (genTimestamps count base) :=
    List.sorted_insertionSort _ _
  have hs2 : List.Sorted (· ≤ ·)
      ((List.range count).map (fun (i : Nat) => base - ((count - 1 - i : Nat) : Int) * 180)) := by
    rw [← hrev, List.Sorted, rawTimestamps, List.pairwise_reverse, List.pairwise_map]
    apply (List.pairwise_lt_range count).imp
    intro i j hij
    have h1 : (i : Int) * 180 ≤ (j : Int) * 180 := by
      apply mul_le_mul_of_nonneg_right _ (by norm_num)
      exact_mod_cast Nat.le_of_lt hij
    omega
  exact List.eq_of_perm_of_sorted hperm hs1 hs2

theorem length_genTimestamps (count : Nat) (base : Int) :
    (genTimestamps count base).length = count := by
  rw [genTimestamps_eq]; simp

/-- The generated timestamps are a permutation of the raw (unsorted) ones. -/
theorem genTimestamps_perm (count : Nat) (base : Int) :
    (genTimestamps count base).Perm (rawTimestamps count base) :=
  List.perm_insertionSort _ _

theorem getElem?_genTimestamps (count : Nat) (base : Int) (i : Nat) (hi : i < count) :
    (genTimestamps count base)[i]? = some (base - ((count - 1 - i : Nat) : Int) * 180) := by
  rw [genTimestamps_eq, List.getElem?_map, List.getElem?_range hi, Option.map_some']

/-- Consecutive generated timestamps differ by exactly 180 seconds. -/
theorem genTimestamps_step (count : Nat) (base : Int) (i : Nat) (hi : i + 1 < count) :
    (genTimestamps count base)[i + 1]? =
      ((genTimestamps count base)[i]?).map (fun t => t + 180) := by
  rw [getElem?_genTimestamps count base (i + 1) hi,
    getElem?_genTimestamps count base i (Nat.lt_of_succ_lt hi), Option.map_some']
  have e : count - 1 - i = (count - 1 - (i + 1)) + 1 := by omega
  rw [e]
  push_cast
  ring_nf

/-- The generated timestamps are strictly increasing. -/
theorem genTimestamps_strict (count : Nat) (base : Int) :
    (genTimestamps count base).Pairwise (· < ·) := by
  rw [genTimestamps_eq, List.pairwise_map]
  apply List.Pairwise.imp_of_mem _ (List.pairwise_lt_range count)
  intro i j hi hj hij
  have hjc : j < count := List.mem_range.mp hj
  have h1 : (count - 1 - j : Nat) < (count - 1 - i : Nat) := by omega
  have h2 : ((count - 1 - j : Nat) : Int) * 180 < ((count - 1 - i : Nat) : Int) * 180 := by
    apply mul_lt_mul_of_pos_right _ (by norm_num)
    exact_mod_cast h1
  omega

/-- The largest (last) generated timestamp is the base timestamp. -/
theorem genTimestamps_getLast (count : Nat) (base : Int) (hc : 1 ≤ count) :
    (genTimestamps count base).getLast? = some base := by
  rw [List.getLast?_eq_getElem?, length_genTimestamps,
    getElem?_genTimestamps count base (count - 1) (by omega)]
  have e : count - 1 - (count - 1) = 0 := by omega
  rw [e]
  norm_num

/-! ### The signer (`get_signature`, lines 96–104)

The module constants `API_KEY` and `API_SECRET` are both the empty string in
the source; `hashlib.md5(...).hexdigest()` is abstracted as a function
parameter `md5hex`. -/

def API_KEY : String := ""

def API_SECRET : String := ""

/-- `get_signature`: copy the params dict, pop `'format'` from the copy,
concatenate `f"{k}{params[k]}"` over the sorted keys, append the secret, and
hash. Only the popped copy is read afterwards (the caller's dict is examined
in the heap model below). -/
def get_signature (md5hex : String → String) (secret : String) (d : Dict) : String :=
  let params := dictPop d "format"
  let signature := String.join ((pySortStr (keysOf params)).map
    (fun k => k ++ dictGet params k))
  md5hex (signature ++ secret)

/-- Modelled from the spec's algorithm (§4.1), for comparison with
`get_signature`: sort the keys of the mapping other than the output-format
key, concatenate `key + value` for each in sorted order with no separators,
append the shared secret, and hash. -/
def sign_spec (md5hex : String → String) (secret : String) (d : Dict) : String :=
  md5hex (String.join ((pySortStr ((keysOf d).filter (fun k => k ≠ "format"))).map
    (fun k => k ++ dictGet d k)) ++ secret)

theorem mem_pySortStr (k : String) (l : List String) : k ∈ pySortStr l ↔ k ∈ l := by
  rw [pySortStr]
  exact (List.perm_insertionSort _ _).mem_iff

theorem keysOf_dictPop (d : Dict) (k0 : String) :
    keysOf (dictPop d k0) = (keysOf d).filter (fun k => k ≠ k0) := by
  simp only [dictPop, keysOf]
  induction d with
  | nil => rfl
  | cons kv rest ih =>
    rw [List.filter_cons, List.map_cons, List.filter_cons]
    by_cases h : kv.1 = k0
    · rw [if_neg (by simp [h]), if_neg (by simp [h])]
      exact ih
    · rw [if_pos (by simp [h]), if_pos (by simp [h]), List.map_cons, ih]

theorem find?_filter_of_ne (d : Dict) (k0 k : String) (hk : k ≠ k0) :
    (d.filter (fun kv => kv.1 ≠ k0)).find? (fun kv => kv.1 = k) =
      d.find? (fun kv => kv.1 = k) := by
  induction d with
  | nil => rfl
  | cons kv rest ih =>
    rw [List.filter_cons]
    by_cases h : kv.1 = k0
    · rw [if_neg (by simp [h])]
      rw [List.find?_cons_of_neg _
        (by simp only [decide_eq_true_eq]; intro he; exact hk (he.symm.trans h))]
      exact ih
    · rw [if_pos (by simp [h])]
      by_cases hkk : kv.1 = k
      · rw [List.find?_cons_of_pos _ (by simp [hkk]),
          List.find?_cons_of_pos _ (by simp [hkk])]
      · rw [List.find?_cons_of_neg _ (by simp [hkk]),
          List.find?_cons_of_neg _ (by simp [hkk])]
        exact ih

theorem dictGet_dictPop (d : Dict) (k0 k : String) (hk : k ≠ k0) :
    dictGet (dictPop d k0) k = dictGet d k := by
  rw [dictGet, dictGet, dictPop, find?_filter_of_ne d k0 k hk]

theorem dictPop_idem (d : Dict) (k0 : String) :
    dictPop (dictPop d k0) k0 = dictPop d k0 := by
  simp only [dictPop, List.filter_filter]
  apply List.filter_congr
  intro kv _
  simp

/-- The signer strips the output-format key itself: the signature of a dict
and of that dict with `'format'` removed coincide. -/
theorem get_signature_dictPop (md5hex : String → String) (secret : String) (d : Dict) :
    get_signature md5hex secret (dictPop d "format") = get_signature md5hex secret d := by
  simp only [get_signature]
  rw [dictPop_idem]

/-- `get_signature` computes exactly the spec's algorithm. -/
theorem get_signature_eq_sign_spec (md5hex : String → String) (secret : String) (d : Dict) :
    get_signature md5hex secret d = sign_spec md5hex secret d := by
  simp only [get_signature, sign_spec, keysOf_dictPop]
  have hmap : (pySortStr ((keysOf d).filter (fun k => k ≠ "format"))).map
      (fun k => k ++ dictGet (dictPop d "format") k) =
      (pySortStr ((keysOf d).filter (fun k => k ≠ "format"))).map
      (fun k => k ++ dictGet d k) := by
    apply List.map_congr_left
    intro k hk
    have hmem : k ∈ (keysOf d).filter (fun k => k ≠ "format") :=
      (mem_pySortStr k _).mp hk
    have hne : k ≠ "format" := by simpa using List.of_mem_filter hmem
    rw [dictGet_dictPop d "format" k hne]
  rw [hmap]

/-! ### Determinism of the signer -/

/-- In a genuine dict (no duplicate keys), two entries with the same key are
the same entry. -/
theorem mem_eq_of_nodup_keys {d : Dict} (hnd : (keysOf d).Nodup)
    {kv1 kv2 : String × String} (h1 : kv1 ∈ d) (h2 : kv2 ∈ d) (hk : kv1.1 = kv2.1) :
    kv1 = kv2 := by
  induction d with
  | nil => cases h1
  | cons a rest ih =>
    rw [keysOf, List.map_cons, List.nodup_cons] at hnd
    rcases List.mem_cons.mp h1 with e1 | e1 <;> rcases List.mem_cons.mp h2 with e2 | e2
    · rw [e1, e2]
    · exfalso
      apply hnd.1
      have ha : a.1 = kv2.1 := by rw [← e1]; exact hk
      rw [ha]
      exact List.mem_map_of_mem Prod.fst e2
    · exfalso
      apply hnd.1
      have ha : a.1 = kv1.1 := by rw [← e2]; exact hk.symm
      rw [ha]
      exact List.mem_map_of_mem Prod.fst e1
    · exact ih hnd.2 e1 e2

/-- Dict lookup by key is insensitive to the order of the entries, for
genuine dicts. -/
theorem find?_eq_of_perm {d₁ d₂ : Dict} (hp : d₁.Perm d₂) (hnd : (keysOf d₁).Nodup)
    (k : String) :
    d₁.find? (fun kv => kv.1 = k) = d₂.find? (fun kv => kv.1 = k) := by
  have hnd₂ : (keysOf d₂).Nodup := ((hp.map Prod.fst).nodup_iff).mp hnd
  cases h1 : d₁.find? (fun kv => kv.1 = k) with
  | none =>
    symm
    rw [List.find?_eq_none] at h1 ⊢
    intro x hx
    exact h1 x (hp.mem_iff.mpr hx)
  | some kv =>
    have hmem : kv ∈ d₂ := hp.mem_iff.mp (List.mem_of_find?_eq_some h1)
    have hkey : kv.1 = k := by simpa using List.find?_some h1
    cases h2 : d₂.find? (fun kv => kv.1 = k) with
    | none =>
      rw [List.find?_eq_none] at h2
      exact absurd (by simpa using hkey) (h2 kv hmem)
    | some kv2 =>
      have hmem2 : kv2 ∈ d₁ := hp.mem_iff.mpr (List.mem_of_find?_eq_some h2)
      have hkey2 : kv2.1 = k := by simpa using List.find?_some h2
      have : kv = kv2 :=
        mem_eq_of_nodup_keys hnd (List.mem_of_find?_eq_some h1) hmem2
          (hkey.trans hkey2.symm)
      rw [this]

theorem dictGet_eq_of_perm {d₁ d₂ : Dict} (hp : d₁.Perm d₂) (hnd : (keysOf d₁).Nodup)
    (k : String) : dictGet d₁ k = dictGet d₂ k := by
  rw [dictGet, dictGet, find?_eq_of_perm hp hnd k]

/-- Sorting the key list is insensitive to the order of the entries. -/
theorem pySortStr_eq_of_perm {l₁ l₂ : List String} (hp : l₁.Perm l₂) :
    pySortStr l₁ = pySortStr l₂ := by
  have hperm : (pySortStr l₁).Perm (pySortStr l₂) := by
    rw [pySortStr, pySortStr]
    exact (List.perm_insertionSort _ _).trans (hp.trans (List.perm_insertionSort _ _).symm)
  have hs1 : List.Sorted (· ≤ ·) (pySortStr l₁) := List.sorted_insertionSort _ _
  have hs2 : List.Sorted (· ≤ ·) (pySortStr l₂) := List.sorted_insertionSort _ _
  exact List.eq_of_perm_of_sorted hperm hs1 hs2

/-- Core determinism fact behind claim C6: the signature depends only on the
key-value pairs in the dict, not on their insertion order. -/
theorem get_signature_eq_of_perm (md5hex : String → String) (secret : String)
    {d₁ d₂ : Dict} (hp : d₁.Perm d₂) (hnd : (keysOf d₁).Nodup) :
    get_signature md5hex secret d₁ = get_signature md5hex secret d₂ := by
  simp only [get_signature]
  have hpop : (dictPop d₁ "format").Perm (dictPop d₂ "format") := by
    simp only [dictPop]
    exact hp.filter _
  have hndpop : (keysOf (dictPop d₁ "format")).Nodup := by
    rw [keysOf_dictPop]
    exact hnd.filter _
  have hkeys : pySortStr (keysOf (dictPop d₁ "format")) =
      pySortStr (keysOf (dictPop d₂ "format")) :=
    pySortStr_eq_of_perm (hpop.map Prod.fst)
  rw [hkeys]
  have hvals : (pySortStr (keysOf (dictPop d₂ "format"))).map
      (fun k => k ++ dictGet (dictPop d₁ "format") k) =
      (pySortStr (keysOf (dictPop d₂ "format"))).map
      (fun k => k ++ dictGet (dictPop d₂ "format") k) := by
    apply List.map_congr_left
    intro k _
    rw [dictGet_eq_of_perm hpop hndpop k]
  rw [hvals]

/-! ### The caller's dict is not mutated (heap model for `get_signature`)

In the source, the method body is `params = params.copy()` followed by
`params.pop('format', None)`: the local name is rebound to a fresh dict and
the destructive `pop` hits only that copy. To make this observable we model
dicts as references into a heap (`Heap`), with `copy` allocating and `pop`
mutating in place. -/

/-- A heap of Python dict objects, addressed by allocation index. -/
abbrev Heap := List Dict

/-- Dereference a dict. Out-of-range addresses give the empty dict (never
reached for allocated references). -/
def heapGet (h : Heap) (r : Nat) : Dict := h[r]?.getD []

/-- Overwrite the dict at an address. -/
def heapSet (h : Heap) (r : Nat) (d : Dict) : Heap := h.set r d

/-- `params.copy()`: allocate a fresh dict holding the same entries and
return its address. -/
def heapAllocCopy (h : Heap) (r : Nat) : Heap × Nat := (h ++ [heapGet h r], h.length)

/-- `params.pop('format', None)`: destructively remove the key from the dict
at the given address. -/
def heapPop (h : Heap) (r : Nat) (k : String) : Heap :=
  heapSet h r (dictPop (heapGet h r) k)

/-- `get_signature` as a state transformer on the dict heap, following the
method body line by line: rebind the local to a fresh copy, pop `'format'`
from the copy, build the signature string from the copy, hash. -/
def get_signature_heap (md5hex : String → String) (secret : String)
    (h : Heap) (r : Nat) : Heap × String :=
  let copied := heapAllocCopy h r
  let h2 := heapPop copied.1 copied.2 "format"
  let params := heapGet h2 copied.2
  let signature := String.join ((pySortStr (keysOf params)).map
    (fun k => k ++ dictGet params k))
  (h2, md5hex (signature ++ secret))

theorem heapGet_heapSet_ne (h : Heap) (r r' : Nat) (d : Dict) (hne : r' ≠ r) :
    heapGet (heapSet h r' d) r = heapGet h r := by
  rw [heapGet, heapGet, heapSet, List.getElem?_set_ne hne]

theorem heapGet_append_left (h : Heap) (d : Dict) (r : Nat) (hr : r < h.length) :
    heapGet (h ++ [d]) r = heapGet h r := by
  rw [heapGet, heapGet, List.getElem?_append, if_pos hr]

/-- The copy is read back intact after the pop writes to it. -/
theorem heapGet_heapPop_copy (h : Heap) (r : Nat) :
    heapGet (heapPop (h ++ [heapGet h r]) h.length "format") h.length =
      dictPop (heapGet (h ++ [heapGet h r]) h.length) "format" := by
  rw [heapPop, heapGet, heapSet]
  have hlen : h.length < (h ++ [heapGet h r]).length := by simp
  rw [List.getElem?_set_self hlen, Option.getD_some]

theorem heapGet_concat_length (h : Heap) (d : Dict) :
    heapGet (h ++ [d]) h.length = d := by
  rw [heapGet, List.getElem?_concat_length, Option.getD_some]

/-- Frame property: `get_signature_heap` leaves every already-allocated dict
(in particular the caller's argument) exactly as it was. -/
theorem get_signature_heap_frame (md5hex : String → String) (secret : String)
    (h : Heap) (r r' : Nat) (hr : r' < h.length) :
    heapGet (get_signature_heap md5hex secret h r).1 r' = heapGet h r' := by
  simp only [get_signature_heap, heapAllocCopy, heapPop, heapSet]
  rw [heapGet, heapGet, List.getElem?_set_ne (by omega),
    List.getElem?_append, if_pos hr]
  rfl

/-- The heap-level signer returns the same string as the pure `get_signature`
applied to the dict the caller's reference points at. -/
theorem get_signature_heap_result (md5hex : String → String) (secret : String)
    (h : Heap) (r : Nat) :
    (get_signature_heap md5hex secret h r).2 =
      get_signature md5hex secret (heapGet h r) := by
  simp only [get_signature_heap, get_signature]
  have e : heapGet (heapPop (h ++ [heapGet h r]) h.length "format") h.length =
      dictPop (heapGet h r) "format" := by
    rw [heapGet_heapPop_copy, heapGet_concat_length]
  rw [heapAllocCopy]
  simp only [e]

/-! ### JSON values, Python exceptions, HTTP responses -/

/-- A minimal JSON value, as returned by `response.json()`. -/
inductive JValue where
  | num (n : Int)
  | str (s : String)
  | obj (fields : List (String × JValue))
  | arr (elems : List JValue)

/-- A Python exception, by kind, as raised and caught in the source. -/
inductive PyErr where
  | httpError (status : Nat)
  | jsonError
  | attributeError
  | valueError
deriving DecidableEq

/-- `v.get(k, default)` on a JSON value: the field when present, the default
when absent, an `AttributeError` when the value is not a dict. -/
def jGet (v : JValue) (k : String) (dflt : JValue) : Except PyErr JValue :=
  match v with
  | .obj fields =>
      .ok (((fields.find? (fun kv => kv.1 = k)).map (fun kv => kv.2)).getD dflt)
  | _ => .error .attributeError

/-- Python `int(v)` on a JSON value. -/
def pyInt (v : JValue) : Except PyErr Int :=
  match v with
  | .num n => .ok n
  | .str s =>
      match s.toInt? with
      | some n => .ok n
      | none => .error .valueError
  | _ => .error .valueError

/-- `result.get('scrobbles', {}).get('@attr', {}).get('accepted', 0)`
followed by `int(...)` (`batch_scrobble`, lines 171–172). -/
def acceptedOf (result : JValue) : Except PyErr Int := do
  let s ← jGet result "scrobbles" (.obj [])
  let a ← jGet s "@attr" (.obj [])
  let acc ← jGet a "accepted" (.num 0)
  pyInt acc

/-- One iteration of the chunk loop's `try`/`except`: the amount added to
`success_count` for a given outcome of the `scrobble_tracks` call — the
parsed accepted count on success, `0` when any exception was caught. -/
def chunkContribution (r : Except PyErr JValue) : Int :=
  match r with
  | .error _ => 0
  | .ok result =>
      match acceptedOf result with
      | .ok n => n
      | .error _ => 0

/-- One scrobble event dict `{'artist': …, 'track': …, 'timestamp': …}`. -/
structure Scrobble where
  artist : String
  track : String
  timestamp : Int
deriving DecidableEq

/-- The scrobble list `batch_scrobble` builds from the sorted timestamps. -/
def genScrobbles (artist title : String) (count : Nat) (base : Int) : List Scrobble :=
  (genTimestamps count base).map (fun ts => ⟨artist, title, ts⟩)

theorem length_genScrobbles (artist title : String) (count : Nat) (base : Int) :
    (genScrobbles artist title count base).length = count := by
  rw [genScrobbles, List.length_map, length_genTimestamps]

/-- `batch_scrobble`, with the `scrobble_tracks` call abstracted as `submit`
(covering the HTTP round trip and any exception it raises) and the base
timestamp as a parameter (`int(start_date.timestamp())` or
`int(time.time())`). Returns the list of chunk payloads submitted, in order,
and the final `success_count`; the `time.sleep(1)` between chunks has no
observable effect in this model. -/
def batch_scrobble (submit : List Scrobble → Except PyErr JValue)
    (artist title : String) (count : Nat) (base_timestamp : Int) :
    List (List Scrobble) × Int :=
  let scrobbles := genScrobbles artist title count base_timestamp
  (chunksOf scrobbles 50).foldl
    (fun acc batch => (acc.1 ++ [batch], acc.2 + chunkContribution (submit batch)))
    ([], 0)

theorem batch_loop_spec (submit : List Scrobble → Except PyErr JValue)
    (batches : List (List Scrobble)) (t0 : List (List Scrobble)) (a0 : Int) :
    batches.foldl
      (fun acc batch => (acc.1 ++ [batch], acc.2 + chunkContribution (submit batch)))
      (t0, a0) =
    (t0 ++ batches, a0 + (batches.map (fun b => chunkContribution (submit b))).sum) := by
  induction batches generalizing t0 a0 with
  | nil => simp
  | cons b rest ih =>
    rw [List.foldl_cons, ih]
    simp [add_assoc]

/-- Closed form of `batch_scrobble`: it submits exactly the 50-chunks of the
generated scrobbles, in order, and returns the sum of the per-chunk
contributions. -/
theorem batch_scrobble_eq (submit : List Scrobble → Except PyErr JValue)
    (artist title : String) (count : Nat) (base : Int) :
    batch_scrobble submit artist title count base =
      (chunksOf (genScrobbles artist title count base) 50,
       ((chunksOf (genScrobbles artist title count base) 50).map
         (fun b => chunkContribution (submit b))).sum) := by
  rw [batch_scrobble, batch_loop_spec]
  simp

theorem chunksOf_of_ne_nil {l : List α} (hl : l ≠ []) (m : Nat) :
    chunksOf l (m + 1) = l.take (m + 1) :: chunksOf (l.drop (m + 1)) (m + 1) := by
  cases l with
  | nil => exact absurd rfl hl
  | cons x xs => exact chunksOf_cons x xs m

/-- A 120-element list falls into 50-chunks of sizes exactly 50, 50, 20. -/
theorem map_length_chunksOf_120 (l : List α) (hl : l.length = 120) :
    (chunksOf l 50).map List.length = [50, 50, 20] := by
  have h0 : l ≠ [] := by intro e; rw [e] at hl; simp at hl
  have hd1 : (l.drop 50).length = 70 := by rw [List.length_drop, hl]
  have h1 : l.drop 50 ≠ [] := by intro e; rw [e] at hd1; simp at hd1
  have hd2 : ((l.drop 50).drop 50).length = 20 := by rw [List.length_drop, hd1]
  have h2 : (l.drop 50).drop 50 ≠ [] := by intro e; rw [e] at hd2; simp at hd2
  have hd3 : ((((l.drop 50).drop 50)).drop 50).length = 0 := by rw [List.length_drop, hd2]
  have h3 : (((l.drop 50).drop 50)).drop 50 = [] := List.eq_nil_of_length_eq_zero hd3
  rw [show (50 : Nat) = 49 + 1 from rfl]
  rw [chunksOf_of_ne_nil h0 49, chunksOf_of_ne_nil h1 49, chunksOf_of_ne_nil h2 49,
    h3, chunksOf_nil]
  simp [List.length_take, hl, hd1, hd2]

/-- A submission oracle whose response accepts every event in the chunk:
`{"scrobbles": {"@attr": {"accepted": n}}}` with `n` the chunk size. -/
def fullAccept (batch : List Scrobble) : Except PyErr JValue :=
  .ok (.obj [("scrobbles", .obj [("@attr", .obj [("accepted", .num batch.length)])])])

theorem chunkContribution_fullAccept (batch : List Scrobble) :
    chunkContribution (fullAccept batch) = batch.length := by
  rfl

/-! ### HTTP submitters (`scrobble_track` lines 106–123,
`scrobble_tracks` lines 125–146)

Both methods call `ensure_auth` first; they are modelled for an
authenticated scrobbler (`self.session_key = sk` set, so `ensure_auth` is a
no-op) with the HTTP POST abstracted as `post`. -/

/-- An HTTP response: the status code and the result of `response.json()`
(`none` when the body is not valid JSON, in which case `.json()` raises). -/
structure HttpResponse where
  status : Nat
  jsonBody : Option JValue

/-- `response.json()`: the parsed body, or a raised JSON decode error. -/
def pyJson (resp : HttpResponse) : Except PyErr JValue :=
  match resp.jsonBody with
  | some j => .ok j
  | none => .error .jsonError

/-- `response.raise_for_status()` from the requests library: raises
`HTTPError` exactly for client-error (4xx) and server-error (5xx) status
codes; informational, success and redirect statuses do not raise. -/
def raise_for_status (resp : HttpResponse) : Except PyErr Unit :=
  if 400 ≤ resp.status ∧ resp.status < 600 then .error (.httpError resp.status)
  else .ok ()

/-- `timestamp or int(time.time())`: Python `or` falls back both when the
timestamp is `None` and when it is `0` (falsy). -/
def tsOrNow (timestamp : Option Int) (now : Int) : Int :=
  match timestamp with
  | some t => if t = 0 then now else t
  | none => now

/-- The form data `scrobble_track` posts: the six base parameters, then
`api_sig` (signature of the base parameters), then `format`. -/
def trackRequest (md5hex : String → String) (sk artist title : String)
    (timestamp : Option Int) (now : Int) : Dict :=
  let params : Dict :=
    [("method", "track.scrobble"), ("api_key", API_KEY), ("sk", sk),
     ("artist", artist), ("track", title), ("timestamp", toString (tsOrNow timestamp now))]
  let params := params ++ [("api_sig", get_signature md5hex API_SECRET params)]
  params ++ [("format", "json")]

/-- `scrobble_track`: posts the signed form and returns `response.json()`
without ever inspecting the status code. -/
def scrobble_track (md5hex : String → String) (post : Dict → HttpResponse)
    (sk artist title : String) (timestamp : Option Int) (now : Int) :
    Except PyErr JValue :=
  pyJson (post (trackRequest md5hex sk artist title timestamp now))

/-- The form data `scrobble_tracks` posts: the three base parameters, the
indexed `artist[i]`/`track[i]`/`timestamp[i]` triples in order, then
`api_sig` (signature of everything so far), then `format`. -/
def tracksRequest (md5hex : String → String) (sk : String)
    (scrobbles : List Scrobble) : Dict :=
  let params : Dict :=
    [("method", "track.scrobble"), ("api_key", API_KEY), ("sk", sk)] ++
      (scrobbles.enum.map (fun p =>
        [("artist[" ++ toString p.1 ++ "]", p.2.artist),
         ("track[" ++ toString p.1 ++ "]", p.2.track),
         ("timestamp[" ++ toString p.1 ++ "]", toString p.2.timestamp)])).flatten
  let params := params ++ [("api_sig", get_signature md5hex API_SECRET params)]
  params ++ [("format", "json")]

/-- `scrobble_tracks`: posts the signed form, calls
`response.raise_for_status()`, then returns `response.json()`. -/
def scrobble_tracks (md5hex : String → String) (post : Dict → HttpResponse)
    (sk : String) (scrobbles : List Scrobble) : Except PyErr JValue :=
  let response := post (tracksRequest md5hex sk scrobbles)
  match raise_for_status response with
  | .error e => .error e
  | .ok _ => pyJson response

/-- Whether a submitter outcome is a raised `HTTPError`. -/
def isHttpError : Except PyErr JValue → Bool
  | .error (.httpError _) => true
  | _ => false

theorem scrobble_tracks_httpError_iff (md5hex : String → String)
    (post : Dict → HttpResponse) (sk : String) (scrobbles : List Scrobble) :
    isHttpError (scrobble_tracks md5hex post sk scrobbles) = true ↔
      (400 ≤ (post (tracksRequest md5hex sk scrobbles)).status ∧
       (post (tracksRequest md5hex sk scrobbles)).status < 600) := by
  rw [scrobble_tracks, raise_for_status]
  by_cases h : 400 ≤ (post (tracksRequest md5hex sk scrobbles)).status ∧
      (post (tracksRequest md5hex sk scrobbles)).status < 600
  · rw [if_pos h]
    simpa [isHttpError] using h
  · rw [if_neg h]
    simp only [pyJson]
    cases hj : (post (tracksRequest md5hex sk scrobbles)).jsonBody with
    | none => simpa [isHttpError] using h
    | some j => simpa [isHttpError] using h

theorem scrobble_track_returns (md5hex : String → String)
    (post : Dict → HttpResponse) (sk artist title : String)
    (timestamp : Option Int) (now : Int) (j : JValue)
    (hj : (post (trackRequest md5hex sk artist title timestamp now)).jsonBody = some j) :
    scrobble_track md5hex post sk artist title timestamp now = .ok j := by
  rw [scrobble_track, pyJson, hj]

/-- `scrobble_track` can never produce a raised `HTTPError`: it never calls
`raise_for_status`. -/
theorem scrobble_track_no_httpError (md5hex : String → String)
    (post : Dict → HttpResponse) (sk artist title : String)
    (timestamp : Option Int) (now : Int) :
    isHttpError (scrobble_track md5hex post sk artist title timestamp now) = false := by
  rw [scrobble_track, pyJson]
  cases (post (trackRequest md5hex sk artist title timestamp now)).jsonBody with
  | none => rfl
  | some j => rfl

/-! ### CLI clamping (`main`, lines 192–193) -/

/-- `count = min(1000, max(1, count))` applied to the integer the user
entered. -/
def clampCount (n : Int) : Int := min 1000 (max 1 n)

/-! ### Credential loading (`load_session` lines 28–38, `__init__` lines 25–26) -/

/-- Lookup of a field in a JSON object level. -/
def jLookup (fields : List (String × JValue)) (k : String) : Option JValue :=
  (fields.find? (fun kv => kv.1 = k)).map (fun kv => kv.2)

/-- The states of the credentials file as `load_session` can encounter them:
absent (`os.path.exists` is false), unreadable (`open` raises), malformed
(`json.load` raises), or parsed JSON. -/
inductive CredFile where
  | absent
  | unreadable
  | badJson
  | parsed (v : JValue)

/-- `load_session`: every exception (I/O, JSON decode, and the `TypeError`
from `'session_key' in data` or `data['session_key']` on non-dict JSON) is
caught by the bare `except`, falling through to `return None`. A value comes
back only from a parsed JSON object with a `session_key` field; for non-dict
parses the membership test is false or the indexing raises, both caught,
both yielding `None`. -/
def load_session : CredFile → Option JValue
  | .absent => none
  | .unreadable => none
  | .badJson => none
  | .parsed v =>
      match v with
      | .obj fields => jLookup fields "session_key"
      | _ => none

/-- The only state `LastFMScrobbler.__init__` establishes. -/
structure LastFMScrobbler where
  session_key : Option JValue

/-- `LastFMScrobbler.__init__`: always succeeds, storing `load_session`'s
result. -/
def initScrobbler (f : CredFile) : LastFMScrobbler := ⟨load_session f⟩

/-! ### Missing accepted-count field (claim C8) -/

/-- The response is a JSON object whose nested `scrobbles.@attr.accepted`
path breaks off at a missing key (every level actually traversed being an
object, so the `.get` chain runs defaults instead of raising). -/
def lacksAccepted (r : JValue) : Prop :=
  ∃ fields, r = .obj fields ∧
    (jLookup fields "scrobbles" = none ∨
     ∃ g, jLookup fields "scrobbles" = some (.obj g) ∧
       (jLookup g "@attr" = none ∨
        ∃ h, jLookup g "@attr" = some (.obj h) ∧ jLookup h "accepted" = none))

theorem jGet_obj (fields : List (String × JValue)) (k : String) (dflt : JValue) :
    jGet (.obj fields) k dflt = .ok ((jLookup fields k).getD dflt) := rfl

theorem chunkContribution_ok (result : JValue) :
    chunkContribution (.ok result) =
      match acceptedOf result with
      | .ok n => n
      | .error _ => 0 := rfl

/-- A response with the accepted-count path missing parses as zero accepted
scrobbles. -/
theorem acceptedOf_of_lacksAccepted {r : JValue} (h : lacksAccepted r) :
    acceptedOf r = .ok 0 := by
  obtain ⟨fields, rfl, hcase⟩ := h
  rcases hcase with hnone | ⟨g, hg, hcase2⟩
  · rw [acceptedOf, jGet_obj, hnone]
    rfl
  · rcases hcase2 with hnone2 | ⟨hh, hhg, hnone3⟩
    · rw [acceptedOf, jGet_obj, hg, Option.getD_some]
      show (jGet (.obj g) "@attr" (.obj []) >>= fun a =>
        jGet a "accepted" (.num 0) >>= pyInt) = .ok 0
      rw [jGet_obj, hnone2]
      rfl
    · rw [acceptedOf, jGet_obj, hg, Option.getD_some]
      show (jGet (.obj g) "@attr" (.obj []) >>= fun a =>
        jGet a "accepted" (.num 0) >>= pyInt) = .ok 0
      rw [jGet_obj, hhg, Option.getD_some]
      show (jGet (.obj hh) "accepted" (.num 0) >>= pyInt) = .ok 0
      rw [jGet_obj, hnone3]
      rfl

/-! ### Concrete submission oracles used as witnesses -/

/-- A submission oracle that always raises an `HTTPError` (every chunk's
POST comes back 500). -/
def alwaysFail (_ : List Scrobble) : Except PyErr JValue :=
  .error (.httpError 500)

/-- A submission oracle whose response parses but carries no
`scrobbles.@attr.accepted` field. -/
def okEmpty (_ : List Scrobble) : Except PyErr JValue :=
  .ok (.obj [])

/-! ## The claims -/

/-- Claim C1: for every count ≥ 0, `batch_scrobble` partitions the count
generated events into exactly `⌈count/50⌉` chunks (here `(count + 49) / 50`)
and makes one submission call per chunk, in order, each call carrying at most
50 events, the chunks concatenating back to the generated events; for
`count = 120` it produces 3 chunks of sizes 50, 50 and 20, and if every
chunk's response reports its full size accepted the returned total is 120. -/
theorem batch_chunking_correct (submit : List Scrobble → Except PyErr JValue)
    (artist title : String) (count : Nat) (base : Int) :
    (batch_scrobble submit artist title count base).1 =
      chunksOf (genScrobbles artist title count base) 50 ∧
    (batch_scrobble submit artist title count base).1.length = (count + 49) / 50 ∧
    (∀ b ∈ (batch_scrobble submit artist title count base).1, b.length ≤ 50) ∧
    (batch_scrobble submit artist title count base).1.flatten =
      genScrobbles artist title count base ∧
    (batch_scrobble fullAccept "Artist A" "Track B" 120 base).1.map List.length =
      [50, 50, 20] ∧
    (batch_scrobble fullAccept "Artist A" "Track B" 120 base).2 = 120 := by
  have he := batch_scrobble_eq submit artist title count base
  have he120 := batch_scrobble_eq fullAccept "Artist A" "Track B" 120 base
  have h120 : (chunksOf (genScrobbles "Artist A" "Track B" 120 base) 50).map List.length =
      [50, 50, 20] :=
    map_length_chunksOf_120 _ (length_genScrobbles _ _ _ _)
  refine ⟨by rw [he], ?_, ?_, ?_, by rw [he120]; exact h120, ?_⟩
  · rw [he]
    show (chunksOf (genScrobbles artist title count base) 50).length = (count + 49) / 50
    rw [length_chunksOf _ 50 (by decide), length_genScrobbles]
    have e : count + 50 - 1 = count + 49 := by omega
    rw [e]
  · rw [he]
    exact length_le_of_mem_chunksOf _ 50
  · rw [he]
    exact join_chunksOf _ 50 (by decide)
  · rw [he120]
    show ((chunksOf (genScrobbles "Artist A" "Track B" 120 base) 50).map
      (fun b => chunkContribution (fullAccept b))).sum = 120
    have hm : (chunksOf (genScrobbles "Artist A" "Track B" 120 base) 50).map
        (fun b => chunkContribution (fullAccept b)) =
        ((chunksOf (genScrobbles "Artist A" "Track B" 120 base) 50).map List.length).map
        (fun (n : Nat) => (n : Int)) := by
      rw [List.map_map]
      apply List.map_congr_left
      intro b _
      rw [Function.comp_apply, chunkContribution_fullAccept]
    rw [hm, h120]
    norm_num

theorem batch_chunking_correct_witness :
    (genScrobbles "A" "T" 1 0).take 50 ∈ (batch_scrobble fullAccept "A" "T" 1 0).1 ∧
    ((genScrobbles "A" "T" 1 0).take 50).length ≤ 50 := by
  have h := batch_chunking_correct fullAccept "A" "T" 1 0
  have hne : genScrobbles "A" "T" 1 0 ≠ [] := by
    intro e
    have hl := length_genScrobbles "A" "T" 1 0
    rw [e] at hl
    simp at hl
  have hmem : (genScrobbles "A" "T" 1 0).take 50 ∈ (batch_scrobble fullAccept "A" "T" 1 0).1 := by
    rw [h.1, show (50 : Nat) = 49 + 1 from rfl, chunksOf_of_ne_nil hne 49]
    exact List.mem_cons_self _ _
  exact ⟨hmem, h.2.2.1 _ hmem⟩

/-- Claim C2: for every count ≥ 1 and base timestamp, `batch_scrobble`
generates exactly `count` timestamps — the values `base - i·180` for
`i` in `0..count-1`, sorted ascending — so consecutive entries differ by
exactly 180 seconds, the sequence is strictly increasing, and its largest
(last) element is the base timestamp. -/
theorem genTimestamps_spec (count : Nat) (base : Int) (hc : 1 ≤ count) :
    (genTimestamps count base).length = count ∧
    (genTimestamps count base).Perm (rawTimestamps count base) ∧
    genTimestamps count base =
      (List.range count).map (fun (i : Nat) => base - ((count - 1 - i : Nat) : Int) * 180) ∧
    (∀ i, i + 1 < count → (genTimestamps count base)[i + 1]? =
      ((genTimestamps count base)[i]?).map (fun t => t + 180)) ∧
    (genTimestamps count base).Pairwise (· < ·) ∧
    (genTimestamps count base).getLast? = some base :=
  ⟨length_genTimestamps count base, genTimestamps_perm count base,
   genTimestamps_eq count base,
   fun i hi => genTimestamps_step count base i hi,
   genTimestamps_strict count base,
   genTimestamps_getLast count base hc⟩

theorem genTimestamps_spec_witness :
    (genTimestamps 3 0).getLast? = some 0 ∧
    (genTimestamps 3 0)[1]? = ((genTimestamps 3 0)[0]?).map (fun t => t + 180) :=
  ⟨(genTimestamps_spec 3 0 (by decide)).2.2.2.2.2,
   (genTimestamps_spec 3 0 (by decide)).2.2.2.1 0 (by decide)⟩

/-- Claim C3: `get_signature` equals the digest of the string formed by
concatenating `key + value` for every key except the output-format key
`'format'`, in sorted key order with no separators, followed by the shared
secret (the spec-side `sign_spec`); and the signer strips `'format'` itself,
so a mapping with it and the same mapping without it sign identically. -/
theorem get_signature_correct (md5hex : String → String) (secret : String) (d : Dict) :
    get_signature md5hex secret d = sign_spec md5hex secret d ∧
    get_signature md5hex secret d = get_signature md5hex secret (dictPop d "format") :=
  ⟨get_signature_eq_sign_spec md5hex secret d,
   (get_signature_dictPop md5hex secret d).symm⟩

/-- Claim C4: when the submission of a chunk raises, that chunk contributes
0 to the total, yet every chunk is still submitted (the submitted chunk list
is always the full chunking) and the returned total is the sum of the
per-chunk contributions — i.e. of the accepted counts of exactly the chunks
that succeeded. `batch_scrobble` is a total function: no exception
propagates out of it. -/
theorem batch_partial_failure (submit : List Scrobble → Except PyErr JValue)
    (artist title : String) (count : Nat) (base : Int)
    (b : List Scrobble) (e : PyErr) (hb : submit b = .error e) :
    chunkContribution (submit b) = 0 ∧
    (batch_scrobble submit artist title count base).1 =
      chunksOf (genScrobbles artist title count base) 50 ∧
    (batch_scrobble submit artist title count base).2 =
      ((chunksOf (genScrobbles artist title count base) 50).map
        (fun c => chunkContribution (submit c))).sum := by
  refine ⟨?_, by rw [batch_scrobble_eq], by rw [batch_scrobble_eq]⟩
  rw [hb]
  rfl

theorem batch_partial_failure_witness :
    alwaysFail [] = .error (.httpError 500) ∧
    chunkContribution (alwaysFail []) = 0 ∧
    (batch_scrobble alwaysFail "A" "T" 51 0).2 =
      ((chunksOf (genScrobbles "A" "T" 51 0) 50).map
        (fun c => chunkContribution (alwaysFail c))).sum := by
  have h := batch_partial_failure alwaysFail "A" "T" 51 0 [] (.httpError 500) rfl
  exact ⟨rfl, h.1, h.2.2⟩

/-- Claim C5: the repetition count passed on is `min(1000, max(1, input))`:
any input above 1000 becomes 1000 and any input below 1 becomes 1
(5000 ↦ 1000, 0 ↦ 1). -/
theorem clampCount_spec (n : Int) :
    clampCount n = min 1000 (max 1 n) ∧
    (1000 < n → clampCount n = 1000) ∧
    (n < 1 → clampCount n = 1) ∧
    clampCount 5000 = 1000 ∧
    clampCount 0 = 1 := by
  refine ⟨rfl, ?_, ?_, by decide, by decide⟩
  · intro h
    rw [clampCount]
    omega
  · intro h
    rw [clampCount]
    omega

theorem clampCount_spec_witness :
    clampCount 5000 = 1000 ∧ clampCount 0 = 1 :=
  ⟨(clampCount_spec 5000).2.1 (by decide), (clampCount_spec 0).2.2.1 (by decide)⟩

/-- Claim C6: `get_signature` is deterministic and insertion-order
independent — two dicts holding exactly the same key-value pairs produce
identical signatures. -/
theorem get_signature_deterministic (md5hex : String → String) (secret : String)
    (d₁ d₂ : Dict) (hp : d₁.Perm d₂) (hnd : (keysOf d₁).Nodup) :
    get_signature md5hex secret d₁ = get_signature md5hex secret d₂ :=
  get_signature_eq_of_perm md5hex secret hp hnd

theorem get_signature_deterministic_witness :
    ([("b", "2"), ("a", "1")] : Dict).Perm [("a", "1"), ("b", "2")] ∧
    (keysOf ([("b", "2"), ("a", "1")] : Dict)).Nodup ∧
    get_signature (fun s => s) "secret" [("b", "2"), ("a", "1")] =
      get_signature (fun s => s) "secret" [("a", "1"), ("b", "2")] :=
  ⟨List.Perm.swap ("a", "1") ("b", "2") [], by decide,
   get_signature_deterministic (fun s => s) "secret" _ _
     (List.Perm.swap ("a", "1") ("b", "2") []) (by decide)⟩

/-- Claim C7 as stated is false on the code: `raise_for_status` raises only
for 4xx/5xx statuses, so with every POST answered by status 304 — a non-2xx
redirect — and a parseable body, `scrobble_tracks` raises no `HTTPError` at
all. -/
theorem scrobble_tracks_counterexample :
    isHttpError (scrobble_tracks (fun s => s)
      (fun _ => ⟨304, some (.obj [])⟩) "sk" []) = false ∧
    ¬(200 ≤ 304 ∧ 304 < 300) :=
  ⟨rfl, by decide⟩

/-- Claim C7, amended: `scrobble_tracks` raises an `HTTPError` exactly when
the response status is a client or server error (4xx/5xx, the statuses
`raise_for_status` raises for); `scrobble_track` never raises an `HTTPError`
for any status and returns the parsed JSON whenever the body parses. -/
theorem scrobble_error_semantics (md5hex : String → String) (post : Dict → HttpResponse)
    (sk artist title : String) (scrobbles : List Scrobble)
    (timestamp : Option Int) (now : Int) :
    (isHttpError (scrobble_tracks md5hex post sk scrobbles) = true ↔
      (400 ≤ (post (tracksRequest md5hex sk scrobbles)).status ∧
       (post (tracksRequest md5hex sk scrobbles)).status < 600)) ∧
    (∀ j, (post (trackRequest md5hex sk artist title timestamp now)).jsonBody = some j →
      scrobble_track md5hex post sk artist title timestamp now = .ok j) ∧
    isHttpError (scrobble_track md5hex post sk artist title timestamp now) = false :=
  ⟨scrobble_tracks_httpError_iff md5hex post sk scrobbles,
   fun j hj => scrobble_track_returns md5hex post sk artist title timestamp now j hj,
   scrobble_track_no_httpError md5hex post sk artist title timestamp now⟩

theorem scrobble_error_semantics_witness :
    isHttpError (scrobble_tracks (fun s => s)
      (fun _ => ⟨500, some (.obj [])⟩) "sk" []) = true ∧
    scrobble_track (fun s => s) (fun _ => ⟨500, some (.obj [])⟩)
      "sk" "A" "T" none 0 = .ok (.obj []) := by
  have h := scrobble_error_semantics (fun s => s) (fun _ => ⟨500, some (.obj [])⟩)
    "sk" "A" "T" [] none 0
  exact ⟨h.1.mpr (by decide), h.2.1 (.obj []) rfl⟩

/-- Claim C8: a chunk whose submission succeeds but whose response lacks the
nested `scrobbles.@attr.accepted` field is treated as zero accepted
scrobbles — the extraction yields `.ok 0`, the chunk adds 0 to the running
total, and the run still submits every chunk and returns the sum of the
per-chunk contributions instead of raising. -/
theorem batch_missing_accepted (r : JValue) (hr : lacksAccepted r)
    (submit : List Scrobble → Except PyErr JValue)
    (artist title : String) (count : Nat) (base : Int)
    (b : List Scrobble) (hb : submit b = .ok r) :
    acceptedOf r = .ok 0 ∧
    chunkContribution (submit b) = 0 ∧
    (batch_scrobble submit artist title count base).1 =
      chunksOf (genScrobbles artist title count base) 50 ∧
    (batch_scrobble submit artist title count base).2 =
      ((chunksOf (genScrobbles artist title count base) 50).map
        (fun c => chunkContribution (submit c))).sum := by
  have h0 := acceptedOf_of_lacksAccepted hr
  refine ⟨h0, ?_, by rw [batch_scrobble_eq], by rw [batch_scrobble_eq]⟩
  rw [hb, chunkContribution_ok, h0]

theorem batch_missing_accepted_witness :
    chunkContribution (okEmpty []) = 0 ∧
    (batch_scrobble okEmpty "A" "T" 1 0).2 =
      ((chunksOf (genScrobbles "A" "T" 1 0) 50).map
        (fun c => chunkContribution (okEmpty c))).sum := by
  have h := batch_missing_accepted (.obj []) ⟨[], rfl, Or.inl rfl⟩
    okEmpty "A" "T" 1 0 [] rfl
  exact ⟨h.2.1, h.2.2.2⟩

/-- Claim C9: `get_signature` does not mutate its argument — in the heap
model the caller's dict holds exactly the same entries after the call
(including `'format'` if present; only the internal copy is popped), and the
returned string is the pure signature of the caller's dict. -/
theorem get_signature_no_mutation (md5hex : String → String) (secret : String)
    (h : Heap) (r : Nat) (hr : r < h.length) :
    heapGet (get_signature_heap md5hex secret h r).1 r = heapGet h r ∧
    (get_signature_heap md5hex secret h r).2 =
      get_signature md5hex secret (heapGet h r) :=
  ⟨get_signature_heap_frame md5hex secret h r r hr,
   get_signature_heap_result md5hex secret h r⟩

theorem get_signature_no_mutation_witness :
    heapGet (get_signature_heap (fun s => s) "secret"
      [[("format", "json"), ("a", "1")]] 0).1 0 = [("format", "json"), ("a", "1")] := by
  have h := get_signature_no_mutation (fun s => s) "secret"
    [[("format", "json"), ("a", "1")]] 0 (by decide)
  rw [h.1]
  rfl

/-- Claim C10: loading the persisted credential never raises — for an
absent, unreadable or malformed file, and for parsed JSON without a
`session_key` field (object or not), `load_session` returns `None`;
constructing a `LastFMScrobbler` always succeeds and stores exactly that
result; a session key comes back only from a parsed JSON object containing
`session_key`. -/
theorem load_session_spec (f : CredFile) :
    load_session .absent = none ∧
    load_session .unreadable = none ∧
    load_session .badJson = none ∧
    (∀ fields, jLookup fields "session_key" = none →
      load_session (.parsed (.obj fields)) = none) ∧
    (∀ v : JValue, (∀ fields, v ≠ .obj fields) → load_session (.parsed v) = none) ∧
    (∀ sk, load_session f = some sk →
      ∃ fields, f = .parsed (.obj fields) ∧ jLookup fields "session_key" = some sk) ∧
    (initScrobbler f).session_key = load_session f := by
  refine ⟨rfl, rfl, rfl, ?_, ?_, ?_, rfl⟩
  · intro fields hf
    exact hf
  · intro v hv
    cases v with
    | obj fields => exact absurd rfl (hv fields)
    | num n => rfl
    | str s => rfl
    | arr a => rfl
  · intro sk hsk
    cases f with
    | parsed v =>
      cases v with
      | obj fields => exact ⟨fields, rfl, hsk⟩
      | num n => simp [load_session] at hsk
      | str s => simp [load_session] at hsk
      | arr a => simp [load_session] at hsk
    | absent => simp [load_session] at hsk
    | unreadable => simp [load_session] at hsk
    | badJson => simp [load_session] at hsk

theorem load_session_spec_witness :
    load_session (.parsed (.obj [])) = none ∧
    load_session (.parsed (.num 3)) = none ∧
    (∃ fields, (CredFile.parsed (.obj [("session_key", .str "k")])) =
        .parsed (.obj fields) ∧
      jLookup fields "session_key" = some (.str "k")) :=
  ⟨(load_session_spec .absent).2.2.2.1 [] rfl,
   (load_session_spec .absent).2.2.2.2.1 (.num 3) (fun _ h => JValue.noConfusion h),
   (load_session_spec (.parsed (.obj [("session_key", .str "k")]))).2.2.2.2.2.1
     (.str "k") rfl⟩

end Scrobbler
